import Mathlib

/-!
Verification of the bidding-engine repository.

The data model follows `shared/schema.ts`; the in-memory store and its
operations follow `server/storage.ts` (`MemStorage`); the HTTP handlers
follow `server/routes.ts` (`registerRoutes`).  JavaScript `Map`s keyed by
the auto-incremented ids are embedded as insertion-ordered lists, and the
ambient wall clock used for `createdAt` is embedded as a logical counter
`now` on the store, bumped once per record creation.  Monetary amounts
(`doublePrecision` columns) are embedded as rationals.

The predictive scoring engine (bid normalization, beta-posterior
smoothing, quality factors, ranking by adjusted score) is served by a
separate FastAPI process that the Node server only proxies to
(`proxy_bidding_api.js`); its Python sources are not part of this tree,
so those definitions are modelled from the specification and the in-tree
documentation (`static/api-guide.html`, the Stage-3 brief and progress
notes), and are clearly marked as such below.
-/

namespace BiddingEngine

/-! ### Data model (shared/schema.ts) -/

/-- Row of the `advertisers` table. -/
structure Advertiser where
  id : Nat
  userId : Nat
  name : String
  industry : String
  logo : Option String
  website : Option String
  budget : ℚ
  createdAt : Nat
deriving DecidableEq, Repr

/-- Row of the `ad_slots` table. -/
structure AdSlot where
  id : Nat
  publisherId : Nat
  name : String
  website : String
  placement : String
  sizeId : Option Nat
  floorPrice : ℚ
  status : String
  createdAt : Nat
deriving DecidableEq, Repr

/-- Row of the `bids` table. -/
structure Bid where
  id : Nat
  advertiserId : Nat
  adSlotId : Nat
  amount : ℚ
  status : String
  createdAt : Nat
deriving DecidableEq, Repr

/-- Row of the `campaigns` table. -/
structure Campaign where
  id : Nat
  advertiserId : Nat
  name : String
  targetCPM : ℚ
  budget : ℚ
  status : String
  startDate : Nat
  endDate : Option Nat
  createdAt : Nat
deriving DecidableEq, Repr

/-- Payload of `insertAdvertiserSchema` (row minus `id`/`createdAt`). -/
structure InsertAdvertiser where
  userId : Nat
  name : String
  industry : String
  logo : Option String
  website : Option String
  budget : ℚ
deriving DecidableEq, Repr

/-- Payload of `insertAdSlotSchema`. -/
structure InsertAdSlot where
  publisherId : Nat
  name : String
  website : String
  placement : String
  sizeId : Option Nat
  floorPrice : ℚ
  status : String
deriving DecidableEq, Repr

/-- Payload of `insertBidSchema`. -/
structure InsertBid where
  advertiserId : Nat
  adSlotId : Nat
  amount : ℚ
  status : String
deriving DecidableEq, Repr

/-- Payload of `insertCampaignSchema`. -/
structure InsertCampaign where
  advertiserId : Nat
  name : String
  targetCPM : ℚ
  budget : ℚ
  status : String
  startDate : Nat
  endDate : Option Nat
deriving DecidableEq, Repr

/-- TypeScript `Partial<InsertAdvertiser>`: every field optional; a present
field overrides the stored one in the `{ ...old, ...upd }` spread. -/
structure AdvertiserUpdate where
  userId : Option Nat
  name : Option String
  industry : Option String
  logo : Option (Option String)
  website : Option (Option String)
  budget : Option ℚ
deriving DecidableEq, Repr

/-- TypeScript `Partial<InsertAdSlot>`. -/
structure AdSlotUpdate where
  publisherId : Option Nat
  name : Option String
  website : Option String
  placement : Option String
  sizeId : Option (Option Nat)
  floorPrice : Option ℚ
  status : Option String
deriving DecidableEq, Repr

/-- TypeScript `Partial<InsertBid>`. -/
structure BidUpdate where
  advertiserId : Option Nat
  adSlotId : Option Nat
  amount : Option ℚ
  status : Option String
deriving DecidableEq, Repr

/-- TypeScript `Partial<InsertCampaign>`. -/
structure CampaignUpdate where
  advertiserId : Option Nat
  name : Option String
  targetCPM : Option ℚ
  budget : Option ℚ
  status : Option String
  startDate : Option Nat
  endDate : Option (Option Nat)
deriving DecidableEq, Repr

/-- The spread `{ ...advertiser, ...advertiserUpdate }` of
`MemStorage.updateAdvertiser`; `id` and `createdAt` are not part of the
update payload and are kept. -/
def mergeAdvertiser (a : Advertiser) (u : AdvertiserUpdate) : Advertiser :=
  { a with
    userId := u.userId.getD a.userId
    name := u.name.getD a.name
    industry := u.industry.getD a.industry
    logo := u.logo.getD a.logo
    website := u.website.getD a.website
    budget := u.budget.getD a.budget }

/-- The spread `{ ...adSlot, ...adSlotUpdate }` of `MemStorage.updateAdSlot`. -/
def mergeAdSlot (sl : AdSlot) (u : AdSlotUpdate) : AdSlot :=
  { sl with
    publisherId := u.publisherId.getD sl.publisherId
    name := u.name.getD sl.name
    website := u.website.getD sl.website
    placement := u.placement.getD sl.placement
    sizeId := u.sizeId.getD sl.sizeId
    floorPrice := u.floorPrice.getD sl.floorPrice
    status := u.status.getD sl.status }

/-- The spread `{ ...bid, ...bidUpdate }` of `MemStorage.updateBid`. -/
def mergeBid (b : Bid) (u : BidUpdate) : Bid :=
  { b with
    advertiserId := u.advertiserId.getD b.advertiserId
    adSlotId := u.adSlotId.getD b.adSlotId
    amount := u.amount.getD b.amount
    status := u.status.getD b.status }

/-- The spread `{ ...campaign, ...campaignUpdate }` of `MemStorage.updateCampaign`. -/
def mergeCampaign (c : Campaign) (u : CampaignUpdate) : Campaign :=
  { c with
    advertiserId := u.advertiserId.getD c.advertiserId
    name := u.name.getD c.name
    targetCPM := u.targetCPM.getD c.targetCPM
    budget := u.budget.getD c.budget
    status := u.status.getD c.status
    startDate := u.startDate.getD c.startDate
    endDate := u.endDate.getD c.endDate }

/-! ### MemStorage (server/storage.ts) -/

/-- The mutable state of `MemStorage`: the entity maps (as insertion-ordered
lists) together with the id counters and the logical clock standing in for
`new Date()`. -/
structure MemStorage where
  advertisers : List Advertiser
  adSlots : List AdSlot
  bids : List Bid
  campaigns : List Campaign
  advertiserId : Nat
  adSlotId : Nat
  bidId : Nat
  campaignId : Nat
  now : Nat
deriving DecidableEq, Repr

/-- Lookup `MemStorage.getAdvertiser` — `this.advertisers.get(id)`. -/
def getAdvertiser (s : MemStorage) (id : Nat) : Option Advertiser :=
  s.advertisers.find? (fun a => a.id == id)

/-- Lookup `MemStorage.getAdSlot` — `this.adSlots.get(id)`. -/
def getAdSlot (s : MemStorage) (id : Nat) : Option AdSlot :=
  s.adSlots.find? (fun sl => sl.id == id)

/-- Lookup `MemStorage.getBid` — `this.bids.get(id)`. -/
def getBid (s : MemStorage) (id : Nat) : Option Bid :=
  s.bids.find? (fun b => b.id == id)

/-- Lookup `MemStorage.getCampaign` — `this.campaigns.get(id)`. -/
def getCampaign (s : MemStorage) (id : Nat) : Option Campaign :=
  s.campaigns.find? (fun c => c.id == id)

/-- Filter `MemStorage.getBidsByAdSlot` over the bids map, in insertion order. -/
def getBidsByAdSlot (s : MemStorage) (adSlotId : Nat) : List Bid :=
  s.bids.filter (fun b => b.adSlotId == adSlotId)

/-- Filter `MemStorage.getBidsByAdvertiser` over the bids map. -/
def getBidsByAdvertiser (s : MemStorage) (advertiserId : Nat) : List Bid :=
  s.bids.filter (fun b => b.advertiserId == advertiserId)

/-- Operation `MemStorage.createAdvertiser`. -/
def createAdvertiser (s : MemStorage) (ins : InsertAdvertiser) :
    Advertiser × MemStorage :=
  let a : Advertiser :=
    ⟨s.advertiserId, ins.userId, ins.name, ins.industry, ins.logo, ins.website,
      ins.budget, s.now⟩
  (a, { s with
          advertisers := s.advertisers ++ [a]
          advertiserId := s.advertiserId + 1
          now := s.now + 1 })

/-- Operation `MemStorage.updateAdvertiser`: merge the partial update into the stored
record, leaving the map untouched (and returning `undefined`) when the id is
absent. -/
def updateAdvertiser (s : MemStorage) (id : Nat) (u : AdvertiserUpdate) :
    Option Advertiser × MemStorage :=
  match getAdvertiser s id with
  | none => (none, s)
  | some a =>
    let a' := mergeAdvertiser a u
    (some a',
      { s with
          advertisers :=
            s.advertisers.map (fun x => if x.id == id then mergeAdvertiser x u else x) })

/-- Operation `MemStorage.createAdSlot`. -/
def createAdSlot (s : MemStorage) (ins : InsertAdSlot) : AdSlot × MemStorage :=
  let sl : AdSlot :=
    ⟨s.adSlotId, ins.publisherId, ins.name, ins.website, ins.placement,
      ins.sizeId, ins.floorPrice, ins.status, s.now⟩
  (sl, { s with
           adSlots := s.adSlots ++ [sl]
           adSlotId := s.adSlotId + 1
           now := s.now + 1 })

/-- Operation `MemStorage.updateAdSlot`. -/
def updateAdSlot (s : MemStorage) (id : Nat) (u : AdSlotUpdate) :
    Option AdSlot × MemStorage :=
  match getAdSlot s id with
  | none => (none, s)
  | some sl =>
    (some (mergeAdSlot sl u),
      { s with
          adSlots :=
            s.adSlots.map (fun x => if x.id == id then mergeAdSlot x u else x) })

/-- Operation `MemStorage.deleteAdSlot` — `this.adSlots.delete(id)`. -/
def deleteAdSlot (s : MemStorage) (id : Nat) : Bool × MemStorage :=
  ((getAdSlot s id).isSome,
    { s with adSlots := s.adSlots.filter (fun sl => !(sl.id == id)) })

/-- Operation `MemStorage.createBid`. -/
def createBid (s : MemStorage) (ins : InsertBid) : Bid × MemStorage :=
  let b : Bid :=
    ⟨s.bidId, ins.advertiserId, ins.adSlotId, ins.amount, ins.status, s.now⟩
  (b, { s with
          bids := s.bids ++ [b]
          bidId := s.bidId + 1
          now := s.now + 1 })

/-- Operation `MemStorage.updateBid`. -/
def updateBid (s : MemStorage) (id : Nat) (u : BidUpdate) :
    Option Bid × MemStorage :=
  match getBid s id with
  | none => (none, s)
  | some b =>
    (some (mergeBid b u),
      { s with
          bids := s.bids.map (fun x => if x.id == id then mergeBid x u else x) })

/-- Operation `MemStorage.createCampaign`. -/
def createCampaign (s : MemStorage) (ins : InsertCampaign) :
    Campaign × MemStorage :=
  let c : Campaign :=
    ⟨s.campaignId, ins.advertiserId, ins.name, ins.targetCPM, ins.budget,
      ins.status, ins.startDate, ins.endDate, s.now⟩
  (c, { s with
          campaigns := s.campaigns ++ [c]
          campaignId := s.campaignId + 1
          now := s.now + 1 })

/-- Operation `MemStorage.updateCampaign`. -/
def updateCampaign (s : MemStorage) (id : Nat) (u : CampaignUpdate) :
    Option Campaign × MemStorage :=
  match getCampaign s id with
  | none => (none, s)
  | some c =>
    (some (mergeCampaign c u),
      { s with
          campaigns :=
            s.campaigns.map (fun x => if x.id == id then mergeCampaign x u else x) })

/-- Operation `MemStorage.getHighestBidForAdSlot`: `reduce` over the slot's bids with
the first bid as initial accumulator, keeping the current element only when
its amount is strictly greater. -/
def getHighestBidForAdSlot (s : MemStorage) (adSlotId : Nat) : Option Bid :=
  match getBidsByAdSlot s adSlotId with
  | [] => none
  | b :: bs =>
    some ((b :: bs).foldl
      (fun highest current =>
        if current.amount > highest.amount then current else highest) b)

/-! ### HTTP handlers (server/routes.ts) -/

/-- Outcome of the `POST /api/bids` handler. -/
inductive BidPostResult where
  | adSlotNotFound
  | advertiserNotFound
  | belowFloor (floorPrice : ℚ)
  | created (bid : Bid)
deriving DecidableEq, Repr

/-- HTTP status the `POST /api/bids` handler responds with. -/
def bidPostStatus : BidPostResult → Nat
  | .adSlotNotFound => 404
  | .advertiserNotFound => 404
  | .belowFloor _ => 400
  | .created _ => 201

/-- Error message of the `POST /api/bids` handler, when any. -/
def bidPostMessage : BidPostResult → Option String
  | .adSlotNotFound => some "Ad slot not found"
  | .advertiserNotFound => some "Advertiser not found"
  | .belowFloor f => some ("Bid must be at least " ++ toString f)
  | .created _ => none

/-- The `POST /api/bids` handler: look up the slot (404), the advertiser
(404), reject an amount strictly below the slot's floor price (400) leaving
the store untouched, otherwise create and return the bid (201). -/
def postBid (s : MemStorage) (req : InsertBid) : BidPostResult × MemStorage :=
  match getAdSlot s req.adSlotId with
  | none => (.adSlotNotFound, s)
  | some adSlot =>
    match getAdvertiser s req.advertiserId with
    | none => (.advertiserNotFound, s)
    | some _ =>
      if req.amount < adSlot.floorPrice then
        (.belowFloor adSlot.floorPrice, s)
      else
        let (bid, s') := createBid s req
        (.created bid, s')

/-- A sequence of `POST /api/bids` requests processed in order. -/
def postBidTrace (s : MemStorage) (reqs : List InsertBid) : MemStorage :=
  reqs.foldl (fun st req => (postBid st req).2) s

/-- Outcome of the `POST /api/campaigns` handler. -/
inductive CampaignPostResult where
  | advertiserNotFound
  | budgetExceeded
  | created (campaign : Campaign)
deriving DecidableEq, Repr

/-- HTTP status the `POST /api/campaigns` handler responds with. -/
def campaignPostStatus : CampaignPostResult → Nat
  | .advertiserNotFound => 404
  | .budgetExceeded => 400
  | .created _ => 201

/-- The `POST /api/campaigns` handler: look up the advertiser (404), reject
a campaign budget strictly above the advertiser's budget (400) leaving the
store untouched, otherwise create the campaign and decrement the
advertiser's stored budget by the campaign budget (201). -/
def postCampaign (s : MemStorage) (req : InsertCampaign) :
    CampaignPostResult × MemStorage :=
  match getAdvertiser s req.advertiserId with
  | none => (.advertiserNotFound, s)
  | some advertiser =>
    if req.budget > advertiser.budget then
      (.budgetExceeded, s)
    else
      let created := createCampaign s req
      let updated :=
        updateAdvertiser created.2 advertiser.id
          ⟨none, none, none, none, none, some (advertiser.budget - req.budget)⟩
      (.created created.1, updated.2)

/-- One entry of the `GET /api/ad-slots` response: the slot enriched with
`currentBid` (`highestBid ? highestBid.amount : null`) and `bidders`. -/
structure AdSlotListing where
  slot : AdSlot
  currentBid : Option ℚ
  bidders : Nat
deriving DecidableEq, Repr

/-- The enrichment the `GET /api/ad-slots` and `GET /api/ad-slots/:id`
handlers perform for one slot. -/
def adSlotWithBids (s : MemStorage) (slot : AdSlot) : AdSlotListing :=
  ⟨slot, (getHighestBidForAdSlot s slot.id).map Bid.amount,
    (getBidsByAdSlot s slot.id).length⟩

/-- The `GET /api/ad-slots` handler body. -/
def getAdSlotsRoute (s : MemStorage) : List AdSlotListing :=
  s.adSlots.map (adSlotWithBids s)

/-! ### Storage operations as a step relation (for the immutability claim) -/

/-- The mutating operations `MemStorage` exposes on the entities modelled
here (the getters are pure and omitted). -/
inductive StorageOp where
  | createAdvertiser (ins : InsertAdvertiser)
  | updateAdvertiser (id : Nat) (u : AdvertiserUpdate)
  | createAdSlot (ins : InsertAdSlot)
  | updateAdSlot (id : Nat) (u : AdSlotUpdate)
  | deleteAdSlot (id : Nat)
  | createBid (ins : InsertBid)
  | updateBid (id : Nat) (u : BidUpdate)
  | createCampaign (ins : InsertCampaign)
  | updateCampaign (id : Nat) (u : CampaignUpdate)
deriving DecidableEq, Repr

/-- Apply one storage operation to the store. -/
def applyOp (s : MemStorage) : StorageOp → MemStorage
  | .createAdvertiser ins => (createAdvertiser s ins).2
  | .updateAdvertiser id u => (updateAdvertiser s id u).2
  | .createAdSlot ins => (createAdSlot s ins).2
  | .updateAdSlot id u => (updateAdSlot s id u).2
  | .deleteAdSlot id => (deleteAdSlot s id).2
  | .createBid ins => (createBid s ins).2
  | .updateBid id u => (updateBid s id u).2
  | .createCampaign ins => (createCampaign s ins).2
  | .updateCampaign id u => (updateCampaign s id u).2

/-- The immutability property claimed of stored bids: no storage operation
changes the advertiser, slot or amount of a bid already present. -/
def BidsImmutableUnderOps : Prop :=
  ∀ (s : MemStorage) (op : StorageOp) (id : Nat) (b b' : Bid),
    getBid s id = some b → getBid (applyOp s op) id = some b' →
    b'.advertiserId = b.advertiserId ∧ b'.adSlotId = b.adSlotId ∧
      b'.amount = b.amount

/-! ### Scoring engine, modelled from the spec

The FastAPI scoring service is not part of this tree (the Node server
forwards `/bidding/*` to it in `proxy_bidding_api.js`); the definitions in
this section are modelled from the specification and the in-tree
documentation and are used only by the claims that concern that engine. -/

/-- Pricing models of §3 of the spec. -/
inductive PricingModel where
  | CPM
  | CPC
  | CPA_FIXED
  | CPA_PERCENT
deriving DecidableEq, Repr

/-- Smoothed rate estimates fed to normalization. -/
structure RateEstimates where
  ctr : ℚ
  cvr : ℚ
  averageOrderValue : ℚ
deriving DecidableEq, Repr

/-- Modelled from the spec: the §4.2 BidNormalizer (also documented in
`static/api-guide.html`, "Bid Normalization"), whose Python implementation
is missing from the tree — value per impression per pricing model — CPM
`amount/1000`, CPC `amount*ctr`, CPA fixed `amount*ctr*cvr`, CPA percent
`percent_rate*average_order_value*ctr*cvr`.  The Python implementation is
not in the tree. -/
def normalizeBid (model : PricingModel) (amount percentRate : ℚ)
    (r : RateEstimates) : ℚ :=
  match model with
  | .CPM => amount / 1000
  | .CPC => amount * r.ctr
  | .CPA_FIXED => amount * r.ctr * r.cvr
  | .CPA_PERCENT => percentRate * r.averageOrderValue * r.ctr * r.cvr

/-- Click/conversion history counters for one advertiser/slot pair
(§3 PerformanceRecord). -/
structure PerformanceRecord where
  impressions : ℚ
  clicks : ℚ
  conversions : ℚ
deriving DecidableEq, Repr

/-- Modelled from the spec: the §4.1 beta-posterior smoothing, whose Python
implementation is missing from the tree; the formula follows the in-tree
Stage-3 brief and progress-note snippets —
`(clicks + alpha) / (imps + alpha + beta)`, successes first, trials
second. -/
def beta_posterior (successes trials alpha beta : ℚ) : ℚ :=
  (successes + alpha) / (trials + alpha + beta)

/-- Modelled from the spec: §4.1 smoothed CTR — successes are clicks,
trials are impressions. -/
def ctrEstimate (p : PerformanceRecord) (alpha beta : ℚ) : ℚ :=
  beta_posterior p.clicks p.impressions alpha beta

/-- Modelled from the spec: §4.1 smoothed CVR (edge case) — successes are
conversions, trials are clicks (not impressions). -/
def cvrEstimate (p : PerformanceRecord) (alpha beta : ℚ) : ℚ :=
  beta_posterior p.conversions p.clicks alpha beta

/-- The prior mean α/(α+β) the estimator degenerates to with zero history. -/
def priorMean (alpha beta : ℚ) : ℚ :=
  alpha / (alpha + beta)

/-- A candidate after scoring (§3 ScoredBid): the bid with its final
λ-adjusted score. -/
structure ScoredBid where
  bid : Bid
  adjustedScore : ℚ
deriving DecidableEq, Repr

/-- Modelled from the spec: the §4.5 RANKING order, whose implementation is
missing from the tree — `a` is ranked no later than `b`
when its adjusted score is higher, or the scores tie and its raw amount is
higher, or both tie and it was submitted no later. -/
def ranksNoLaterThan (a b : ScoredBid) : Prop :=
  b.adjustedScore < a.adjustedScore ∨
    (a.adjustedScore = b.adjustedScore ∧
      (b.bid.amount < a.bid.amount ∨
        (a.bid.amount = b.bid.amount ∧ a.bid.createdAt ≤ b.bid.createdAt)))

instance : DecidableRel ranksNoLaterThan := fun a b => by
  unfold ranksNoLaterThan
  infer_instance

instance : IsRefl ScoredBid ranksNoLaterThan :=
  ⟨fun a => Or.inr ⟨rfl, Or.inr ⟨rfl, le_refl _⟩⟩⟩

instance : IsTotal ScoredBid ranksNoLaterThan := by
  constructor
  intro a b
  rcases lt_trichotomy a.adjustedScore b.adjustedScore with h | h | h
  · exact Or.inr (Or.inl h)
  · rcases lt_trichotomy a.bid.amount b.bid.amount with h' | h' | h'
    · exact Or.inr (Or.inr ⟨h.symm, Or.inl h'⟩)
    · rcases Nat.le_total a.bid.createdAt b.bid.createdAt with h'' | h''
      · exact Or.inl (Or.inr ⟨h, Or.inr ⟨h', h''⟩⟩)
      · exact Or.inr (Or.inr ⟨h.symm, Or.inr ⟨h'.symm, h''⟩⟩)
    · exact Or.inl (Or.inr ⟨h, Or.inl h'⟩)
  · exact Or.inl (Or.inl h)

instance : IsTrans ScoredBid ranksNoLaterThan := by
  constructor
  intro a b c hab hbc
  rcases hab with h₁ | ⟨e₁, h₁⟩
  · rcases hbc with h₂ | ⟨e₂, _⟩
    · exact Or.inl (h₂.trans h₁)
    · exact Or.inl (e₂ ▸ h₁)
  · rcases hbc with h₂ | ⟨e₂, h₂⟩
    · exact Or.inl (e₁ ▸ h₂)
    · refine Or.inr ⟨e₁.trans e₂, ?_⟩
      rcases h₁ with h₁ | ⟨f₁, h₁⟩
      · rcases h₂ with h₂ | ⟨f₂, _⟩
        · exact Or.inl (h₂.trans h₁)
        · exact Or.inl (f₂ ▸ h₁)
      · rcases h₂ with h₂ | ⟨f₂, h₂⟩
        · exact Or.inl (f₁ ▸ h₂)
        · exact Or.inr ⟨f₁.trans f₂, h₁.trans h₂⟩

/-- Modelled from the spec: the §4.5 RANKING step — sort the scored candidates by
adjusted score descending, ties by higher raw amount then earlier
submission. -/
def rankBids (c : List ScoredBid) : List ScoredBid :=
  List.insertionSort ranksNoLaterThan c

/-- Modelled from the spec: §4.5 — the winner is the first candidate of the
ranking, absent when no candidate survived. -/
def auctionWinner (c : List ScoredBid) : Option ScoredBid :=
  (rankBids c).head?

/-- The floor-price invariant of §3 of the spec: every stored bid meets the
floor price of its slot, whenever that slot exists. -/
def FloorInv (s : MemStorage) : Prop :=
  ∀ b ∈ s.bids, ∀ slot, getAdSlot s b.adSlotId = some slot →
    slot.floorPrice ≤ b.amount

/-! ### Concrete stores and fixtures used by individual witnesses -/

/-- A slot with floor price 2, used by the equality-at-floor witness. -/
def floorWitnessSlot : AdSlot :=
  ⟨1, 1, "Homepage Banner", "mysite.com", "Header", none, 2, "active", 0⟩

/-- An advertiser used by the equality-at-floor witness. -/
def floorWitnessAdv : Advertiser :=
  ⟨1, 1, "TechGiant Inc.", "Technology", none, none, 10000, 0⟩

/-- A store holding exactly that slot and advertiser and no bids. -/
def floorWitnessStore : MemStorage :=
  ⟨[floorWitnessAdv], [floorWitnessSlot], [], [], 2, 2, 1, 1, 1⟩

/-- A bid request at exactly the slot's floor price. -/
def floorWitnessReq : InsertBid :=
  ⟨1, 1, 2, "pending"⟩

/-- A bid request below the floor price of `floorWitnessSlot`. -/
def lowBidReq : InsertBid :=
  ⟨1, 1, 1, "pending"⟩

/-- The stored bid of the immutability counterexample. -/
def immutWitnessBid : Bid :=
  ⟨1, 1, 1, 5, "pending", 0⟩

/-- A store holding exactly that bid. -/
def immutWitnessStore : MemStorage :=
  ⟨[], [], [immutWitnessBid], [], 1, 1, 2, 1, 1⟩

/-- The `updateBid` call that changes the stored bid's amount from 5 to 3. -/
def immutWitnessOp : StorageOp :=
  .updateBid 1 ⟨none, none, some 3, none⟩

/-- A single scored candidate, used by the ranking witness. -/
def rankWitness : ScoredBid :=
  ⟨⟨1, 1, 1, 5, "pending", 0⟩, 1 / 200⟩

/-- The slot of the spec's §8 worked example: floor price 2 dollars. -/
def exampleSlot : AdSlot :=
  ⟨1, 1, "Mobile App Banner", "myapp.com", "Bottom Bar", none, 2, "active", 0⟩

/-- The rate estimates of the worked example: CTR 0.02. -/
def exampleRates : RateEstimates :=
  ⟨2 / 100, 0, 0⟩

/-- Bid A of the worked example: a CPM bid of 5 dollars. -/
def exampleBidA : Bid :=
  ⟨1, 1, 1, 5, "pending", 0⟩

/-- Bid B of the worked example: a CPC bid of 0.50 dollars. -/
def exampleBidB : Bid :=
  ⟨2, 2, 1, 1 / 2, "pending", 1⟩

/-- Bid A scored through CPM normalization. -/
def exampleScoredA : ScoredBid :=
  ⟨exampleBidA, normalizeBid .CPM exampleBidA.amount 0 exampleRates⟩

/-- Bid B scored through CPC normalization. -/
def exampleScoredB : ScoredBid :=
  ⟨exampleBidB, normalizeBid .CPC exampleBidB.amount 0 exampleRates⟩

/-- A slot used by the empty-slot witness. -/
def emptyWitnessSlot : AdSlot :=
  ⟨1, 1, "Article Sidebar", "mysite.com", "Right Sidebar", none, 11 / 4, "active", 0⟩

/-- A store holding that slot and no bids at all. -/
def emptyWitnessStore : MemStorage :=
  ⟨[], [emptyWitnessSlot], [], [], 1, 2, 1, 1, 1⟩

/-- An advertiser with budget 100, used by the campaign witness. -/
def campaignWitnessAdv : Advertiser :=
  ⟨1, 1, "ShopMart", "Retail", none, none, 100, 0⟩

/-- A store holding exactly that advertiser. -/
def campaignWitnessStore : MemStorage :=
  ⟨[campaignWitnessAdv], [], [], [], 2, 1, 1, 1, 1⟩

/-- A campaign request whose budget 150 exceeds the advertiser's 100. -/
def campaignBigReq : InsertCampaign :=
  ⟨1, "Big Push", 4, 150, "active", 0, none⟩

/-- A campaign request whose budget 40 fits within the advertiser's 100. -/
def campaignSmallReq : InsertCampaign :=
  ⟨1, "Small Push", 4, 40, "active", 0, none⟩

/-! ### Theorems -/

/-- C4: for every non-negative bid amount, CPM normalization returns exactly
`amount / 1000`, independent of the CTR/CVR estimates (the result is the
same under any two rate estimates). -/
theorem cpm_normalization_exact (amount percentRate : ℚ) (r r' : RateEstimates)
    (hamount : 0 ≤ amount) :
    normalizeBid .CPM amount percentRate r = amount / 1000 ∧
    normalizeBid .CPM amount percentRate r =
      normalizeBid .CPM amount percentRate r' :=
  ⟨rfl, rfl⟩

/-- Witness for `cpm_normalization_exact` at amount 7. -/
theorem cpm_normalization_exact_witness :
    (0 : ℚ) ≤ 7 ∧
    (normalizeBid .CPM 7 0 ⟨1, 1, 1⟩ = 7 / 1000 ∧
      normalizeBid .CPM 7 0 ⟨1, 1, 1⟩ = normalizeBid .CPM 7 0 ⟨0, 0, 0⟩) :=
  ⟨by norm_num, cpm_normalization_exact 7 0 ⟨1, 1, 1⟩ ⟨0, 0, 0⟩ (by norm_num)⟩

/-- C5: with zero recorded history (zero impressions, clicks and
conversions) the smoothed CTR and CVR both equal exactly the prior mean
α/(α+β); with the documented default priors (3, 97) that is 3%. -/
theorem zero_history_gives_prior_mean (alpha beta : ℚ) :
    ctrEstimate ⟨0, 0, 0⟩ alpha beta = priorMean alpha beta ∧
    cvrEstimate ⟨0, 0, 0⟩ alpha beta = priorMean alpha beta ∧
    ctrEstimate ⟨0, 0, 0⟩ 3 97 = 3 / 100 := by
  refine ⟨?_, ?_, ?_⟩ <;>
    simp [ctrEstimate, cvrEstimate, beta_posterior, priorMean] <;> norm_num

/-- C6: holding the pricing model and the rate estimates fixed (rates
non-negative), normalization is monotonically non-decreasing in the bid
amount. -/
theorem normalization_monotone (m : PricingModel) (a₁ a₂ percentRate : ℚ)
    (r : RateEstimates) (hctr : 0 ≤ r.ctr) (hcvr : 0 ≤ r.cvr) (h : a₁ ≤ a₂) :
    normalizeBid m a₁ percentRate r ≤ normalizeBid m a₂ percentRate r := by
  cases m with
  | CPM =>
    simp only [normalizeBid]
    linarith
  | CPC =>
    exact mul_le_mul_of_nonneg_right h hctr
  | CPA_FIXED =>
    exact mul_le_mul_of_nonneg_right (mul_le_mul_of_nonneg_right h hctr) hcvr
  | CPA_PERCENT =>
    exact le_refl _

/-- Witness for `normalization_monotone` on a CPC bid. -/
theorem normalization_monotone_witness :
    (0 : ℚ) ≤ 3 / 100 ∧ (0 : ℚ) ≤ 1 / 100 ∧ (2 : ℚ) ≤ 5 ∧
    normalizeBid .CPC 2 0 ⟨3 / 100, 1 / 100, 0⟩ ≤
      normalizeBid .CPC 5 0 ⟨3 / 100, 1 / 100, 0⟩ :=
  ⟨by norm_num, by norm_num, by norm_num,
    normalization_monotone .CPC 2 5 0 ⟨3 / 100, 1 / 100, 0⟩ (by norm_num)
      (by norm_num) (by norm_num)⟩

/-- C9: a bid whose amount equals the slot's floor price passes the
strict-less-than gate of `POST /api/bids`: the bid is created (HTTP 201)
and stored. -/
theorem floor_price_equality_accepted (s : MemStorage) (req : InsertBid)
    (slot : AdSlot) (adv : Advertiser)
    (hslot : getAdSlot s req.adSlotId = some slot)
    (hadv : getAdvertiser s req.advertiserId = some adv)
    (heq : req.amount = slot.floorPrice) :
    ∃ bid s', postBid s req = (.created bid, s') ∧ bid.amount = req.amount ∧
      bidPostStatus (postBid s req).1 = 201 ∧ bid ∈ s'.bids := by
  have hnotlt : ¬ req.amount < slot.floorPrice := by rw [heq]; exact lt_irrefl _
  refine ⟨(createBid s req).1, (createBid s req).2, ?_, rfl, ?_, ?_⟩
  · simp only [postBid, hslot, hadv, if_neg hnotlt]
  · simp only [postBid, hslot, hadv, if_neg hnotlt, bidPostStatus]
  · simp [createBid]

/-- Witness for `floor_price_equality_accepted`: a one-slot, one-advertiser
store and a bid at exactly the floor price. -/
theorem floor_price_equality_accepted_witness :
    getAdSlot floorWitnessStore 1 = some floorWitnessSlot ∧
    getAdvertiser floorWitnessStore 1 = some floorWitnessAdv ∧
    (floorWitnessReq.amount = floorWitnessSlot.floorPrice) ∧
    (∃ bid s', postBid floorWitnessStore floorWitnessReq = (.created bid, s') ∧
      bid.amount = floorWitnessReq.amount ∧
      bidPostStatus (postBid floorWitnessStore floorWitnessReq).1 = 201 ∧
      bid ∈ s'.bids) :=
  ⟨rfl, rfl, rfl,
    floor_price_equality_accepted floorWitnessStore floorWitnessReq
      floorWitnessSlot floorWitnessAdv rfl rfl rfl⟩

/-- C10: a slot with zero stored bids has no highest bid (`undefined`), and
the slot-listing enrichment reports `currentBid` as `null` and `bidders`
as 0. -/
theorem empty_slot_yields_no_winner (s : MemStorage) (slot : AdSlot)
    (h : getBidsByAdSlot s slot.id = []) :
    getHighestBidForAdSlot s slot.id = none ∧
    (adSlotWithBids s slot).currentBid = none ∧
    (adSlotWithBids s slot).bidders = 0 := by
  refine ⟨?_, ?_, ?_⟩ <;> simp [getHighestBidForAdSlot, adSlotWithBids, h]

/-- Witness for `empty_slot_yields_no_winner`: the empty store and a fresh
slot. -/
theorem empty_slot_yields_no_winner_witness :
    getBidsByAdSlot emptyWitnessStore emptyWitnessSlot.id = [] ∧
    (getHighestBidForAdSlot emptyWitnessStore emptyWitnessSlot.id = none ∧
      (adSlotWithBids emptyWitnessStore emptyWitnessSlot).currentBid = none ∧
      (adSlotWithBids emptyWitnessStore emptyWitnessSlot).bidders = 0) :=
  ⟨rfl, empty_slot_yields_no_winner emptyWitnessStore emptyWitnessSlot rfl⟩

/-- Merging an advertiser update never changes the key. -/
theorem mergeAdvertiser_id (a : Advertiser) (u : AdvertiserUpdate) :
    (mergeAdvertiser a u).id = a.id := rfl

/-- Looking an advertiser up after an in-place map update is looking it up
first and then updating. -/
theorem find?_map_mergeAdvertiser (l : List Advertiser) (i j : Nat)
    (u : AdvertiserUpdate) :
    (l.map (fun x => if x.id == i then mergeAdvertiser x u else x)).find?
        (fun a => a.id == j) =
      (l.find? (fun a => a.id == j)).map
        (fun x => if x.id == i then mergeAdvertiser x u else x) := by
  induction l with
  | nil => rfl
  | cons a l ih =>
    have hpa : ((if a.id == i then mergeAdvertiser a u else a).id == j)
        = (a.id == j) := by
      by_cases h : a.id == i <;> simp [h, mergeAdvertiser_id]
    simp only [List.map_cons, List.find?]
    rw [hpa]
    cases h : (a.id == j)
    · exact ih
    · rfl

/-- Updating an advertiser never touches the campaigns map. -/
theorem updateAdvertiser_campaigns (s : MemStorage) (i : Nat)
    (u : AdvertiserUpdate) :
    (updateAdvertiser s i u).2.campaigns = s.campaigns := by
  unfold updateAdvertiser
  rcases h : getAdvertiser s i <;> simp [h]

/-- A found advertiser carries the looked-up id. -/
theorem getAdvertiser_id (s : MemStorage) (i : Nat) (a : Advertiser)
    (h : getAdvertiser s i = some a) : a.id = i := by
  have := List.find?_some h
  simpa using this

/-- C3: `POST /api/campaigns` against an existing advertiser — a campaign
budget strictly above the advertiser's stored budget is rejected with HTTP
400 and the store is unchanged; otherwise the campaign is created and the
advertiser's budget is decremented by exactly the campaign budget, leaving
it non-negative. -/
theorem campaign_budget_guard (s : MemStorage) (req : InsertCampaign)
    (adv : Advertiser) (hadv : getAdvertiser s req.advertiserId = some adv) :
    (adv.budget < req.budget →
      postCampaign s req = (.budgetExceeded, s) ∧
      campaignPostStatus (postCampaign s req).1 = 400 ∧
      getAdvertiser (postCampaign s req).2 req.advertiserId = some adv) ∧
    (req.budget ≤ adv.budget →
      ∃ c s', postCampaign s req = (.created c, s') ∧
        campaignPostStatus (postCampaign s req).1 = 201 ∧
        c.budget = req.budget ∧ c ∈ s'.campaigns ∧
        ∃ adv', getAdvertiser s' req.advertiserId = some adv' ∧
          adv'.budget = adv.budget - req.budget ∧ 0 ≤ adv'.budget) := by
  have hid : adv.id = req.advertiserId := getAdvertiser_id s _ adv hadv
  constructor
  · intro hgt
    have hcond : req.budget > adv.budget := hgt
    have key : postCampaign s req = (.budgetExceeded, s) := by
      simp only [postCampaign, hadv, if_pos hcond]
    exact ⟨key, by rw [key]; rfl, by rw [key]; exact hadv⟩
  · intro hle
    have hcond : ¬ req.budget > adv.budget := not_lt.mpr hle
    have key : postCampaign s req =
        (.created (createCampaign s req).1,
          (updateAdvertiser (createCampaign s req).2 adv.id
            ⟨none, none, none, none, none,
              some (adv.budget - req.budget)⟩).2) := by
      simp only [postCampaign, hadv, if_neg hcond]
    have hadv₁ : getAdvertiser (createCampaign s req).2 adv.id = some adv := by
      rw [hid]
      exact hadv
    refine ⟨(createCampaign s req).1,
      (updateAdvertiser (createCampaign s req).2 adv.id
        ⟨none, none, none, none, none, some (adv.budget - req.budget)⟩).2,
      key, by rw [key]; rfl, rfl, ?_, ?_⟩
    · rw [updateAdvertiser_campaigns]
      simp [createCampaign]
    · refine ⟨mergeAdvertiser adv
        ⟨none, none, none, none, none, some (adv.budget - req.budget)⟩,
        ?_, ?_, ?_⟩
      · simp only [updateAdvertiser, hadv₁]
        simp only [getAdvertiser, find?_map_mergeAdvertiser]
        rw [show ((createCampaign s req).2.advertisers.find?
              (fun a => a.id == req.advertiserId)) = some adv from hadv]
        simp [hid]
      · simp [mergeAdvertiser]
      · simp only [mergeAdvertiser, Option.getD_some]
        linarith

/-- Witness for `campaign_budget_guard`: both branches at a concrete
advertiser with budget 100 and requests of 150 and 40. -/
theorem campaign_budget_guard_witness :
    getAdvertiser campaignWitnessStore 1 = some campaignWitnessAdv ∧
    campaignWitnessAdv.budget < campaignBigReq.budget ∧
    postCampaign campaignWitnessStore campaignBigReq =
      (.budgetExceeded, campaignWitnessStore) ∧
    campaignSmallReq.budget ≤ campaignWitnessAdv.budget ∧
    (∃ c s', postCampaign campaignWitnessStore campaignSmallReq =
        (.created c, s') ∧
      campaignPostStatus
        (postCampaign campaignWitnessStore campaignSmallReq).1 = 201 ∧
      c.budget = campaignSmallReq.budget ∧ c ∈ s'.campaigns ∧
      ∃ adv', getAdvertiser s' 1 = some adv' ∧
        adv'.budget = campaignWitnessAdv.budget - campaignSmallReq.budget ∧
        0 ≤ adv'.budget) := by
  have h₁ := (campaign_budget_guard campaignWitnessStore campaignBigReq
    campaignWitnessAdv rfl).1 (by norm_num [campaignWitnessAdv, campaignBigReq])
  have h₂ := (campaign_budget_guard campaignWitnessStore campaignSmallReq
    campaignWitnessAdv rfl).2 (by norm_num [campaignWitnessAdv, campaignSmallReq])
  exact ⟨rfl, by norm_num [campaignWitnessAdv, campaignBigReq], h₁.1,
    by norm_num [campaignWitnessAdv, campaignSmallReq], h₂⟩

/-- Posting a bid never touches the ad-slot map. -/
theorem postBid_adSlots (s : MemStorage) (req : InsertBid) :
    (postBid s req).2.adSlots = s.adSlots := by
  unfold postBid
  cases h₁ : getAdSlot s req.adSlotId with
  | none => rfl
  | some slot =>
    cases h₂ : getAdvertiser s req.advertiserId with
    | none => rfl
    | some adv =>
      by_cases h₃ : req.amount < slot.floorPrice
      · simp [h₃]
      · simp [h₃, createBid]

/-- Slot lookups are unchanged by `postBid`. -/
theorem getAdSlot_postBid (s : MemStorage) (req : InsertBid) (i : Nat) :
    getAdSlot (postBid s req).2 i = getAdSlot s i := by
  unfold getAdSlot
  rw [postBid_adSlots]

/-- One `POST /api/bids` request preserves the floor-price invariant. -/
theorem floorInv_postBid (s : MemStorage) (req : InsertBid) (h : FloorInv s) :
    FloorInv (postBid s req).2 := by
  intro b hb slot hslot
  rw [getAdSlot_postBid] at hslot
  revert hb
  unfold postBid
  cases h₁ : getAdSlot s req.adSlotId with
  | none => exact fun hb => h b hb slot hslot
  | some sl =>
    cases h₂ : getAdvertiser s req.advertiserId with
    | none => exact fun hb => h b hb slot hslot
    | some adv =>
      by_cases h₃ : req.amount < sl.floorPrice
      · simp only [if_pos h₃]
        exact fun hb => h b hb slot hslot
      · simp only [if_neg h₃]
        intro hb
        simp only [createBid, List.mem_append, List.mem_singleton] at hb
        rcases hb with hb | rfl
        · exact h b hb slot hslot
        · have hsl : some sl = some slot := by rw [← h₁, ← hslot]
          have : sl = slot := Option.some_injective _ hsl
          subst this
          exact not_lt.mp h₃

/-- A whole sequence of `POST /api/bids` requests preserves the invariant. -/
theorem floorInv_postBidTrace (reqs : List InsertBid) (s : MemStorage)
    (h : FloorInv s) : FloorInv (postBidTrace s reqs) := by
  induction reqs generalizing s with
  | nil => exact h
  | cons r rs ih => exact ih (postBid s r).2 (floorInv_postBid s r h)

/-- C1: a `POST /api/bids` request whose amount is below the slot's floor
price is rejected with HTTP 400 and the floor-price message and creates no
bid (the store is returned unchanged); and across any sequence of bid
submissions from a store satisfying the floor invariant, every candidate
later returned for a slot meets that slot's floor price. -/
theorem floor_gate_rejects_low_bids (s : MemStorage) (req : InsertBid)
    (slot : AdSlot) (adv : Advertiser)
    (hslot : getAdSlot s req.adSlotId = some slot)
    (hadv : getAdvertiser s req.advertiserId = some adv)
    (hlow : req.amount < slot.floorPrice) :
    postBid s req = (.belowFloor slot.floorPrice, s) ∧
    bidPostStatus (postBid s req).1 = 400 ∧
    bidPostMessage (postBid s req).1 =
      some ("Bid must be at least " ++ toString slot.floorPrice) ∧
    (postBid s req).2.bids = s.bids ∧
    (FloorInv s → ∀ reqs slotId,
      ∀ b ∈ getBidsByAdSlot (postBidTrace s reqs) slotId,
        ∀ sl, getAdSlot (postBidTrace s reqs) slotId = some sl →
          sl.floorPrice ≤ b.amount) := by
  have key : postBid s req = (.belowFloor slot.floorPrice, s) := by
    simp only [postBid, hslot, hadv, if_pos hlow]
  refine ⟨key, by rw [key]; rfl, by rw [key]; rfl, by rw [key], ?_⟩
  intro hinv reqs slotId b hb sl hsl
  have htr : FloorInv (postBidTrace s reqs) := floorInv_postBidTrace reqs s hinv
  have hmem : b ∈ (postBidTrace s reqs).bids := (List.mem_filter.mp hb).1
  have hid : b.adSlotId = slotId := by
    have := (List.mem_filter.mp hb).2
    simpa using this
  exact htr b hmem sl (by rw [hid]; exact hsl)

/-- Witness for `floor_gate_rejects_low_bids`: a bid of 1 against the floor
price 2. -/
theorem floor_gate_rejects_low_bids_witness :
    getAdSlot floorWitnessStore 1 = some floorWitnessSlot ∧
    getAdvertiser floorWitnessStore 1 = some floorWitnessAdv ∧
    lowBidReq.amount < floorWitnessSlot.floorPrice ∧
    postBid floorWitnessStore lowBidReq =
      (.belowFloor floorWitnessSlot.floorPrice, floorWitnessStore) :=
  ⟨rfl, rfl, by norm_num [lowBidReq, floorWitnessSlot],
    (floor_gate_rejects_low_bids floorWitnessStore lowBidReq floorWitnessSlot
      floorWitnessAdv rfl rfl
      (by norm_num [lowBidReq, floorWitnessSlot])).1⟩

/-- Merging a bid update never changes the key. -/
theorem mergeBid_id (b : Bid) (u : BidUpdate) : (mergeBid b u).id = b.id := rfl

/-- Looking a bid up after an in-place map update is looking it up first
and then updating. -/
theorem find?_map_mergeBid (l : List Bid) (i j : Nat) (u : BidUpdate) :
    (l.map (fun x => if x.id == i then mergeBid x u else x)).find?
        (fun b => b.id == j) =
      (l.find? (fun b => b.id == j)).map
        (fun x => if x.id == i then mergeBid x u else x) := by
  induction l with
  | nil => rfl
  | cons a l ih =>
    have hpa : ((if a.id == i then mergeBid a u else a).id == j)
        = (a.id == j) := by
      by_cases h : a.id == i <;> simp [h, mergeBid_id]
    simp only [List.map_cons, List.find?]
    rw [hpa]
    cases h : (a.id == j)
    · exact ih
    · rfl

/-- Every storage operation other than `createBid` and `updateBid` leaves
the bids map untouched. -/
theorem applyOp_bids_eq (s : MemStorage) (op : StorageOp)
    (hc : ∀ ins, op ≠ .createBid ins) (hu : ∀ i u, op ≠ .updateBid i u) :
    (applyOp s op).bids = s.bids := by
  cases op with
  | createAdvertiser ins => rfl
  | updateAdvertiser i u =>
    unfold applyOp updateAdvertiser
    cases h : getAdvertiser s i <;> simp [h]
  | createAdSlot ins => rfl
  | updateAdSlot i u =>
    unfold applyOp updateAdSlot
    cases h : getAdSlot s i <;> simp [h]
  | deleteAdSlot i => rfl
  | createBid ins => exact absurd rfl (hc ins)
  | updateBid i u => exact absurd rfl (hu i u)
  | createCampaign ins => rfl
  | updateCampaign i u =>
    unfold applyOp updateCampaign
    cases h : getCampaign s i <;> simp [h]

/-- A found bid carries the looked-up id. -/
theorem getBid_id (s : MemStorage) (i : Nat) (b : Bid)
    (h : getBid s i = some b) : b.id = i := by
  have := List.find?_some h
  simpa using this

/-- C8 counterexample: the claim that every storage operation leaves a
stored bid's advertiser, slot and amount unchanged is false —
`MemStorage.updateBid` rewrites the amount of bid 1 from 5 to 3. -/
theorem updateBid_mutates_stored_bid : ¬ BidsImmutableUnderOps := by
  intro h
  have hc := h immutWitnessStore immutWitnessOp 1 immutWitnessBid
    ⟨1, 1, 1, 3, "pending", 0⟩ rfl rfl
  have h5 : (3 : ℚ) = 5 := by
    have := hc.2.2
    simpa [immutWitnessBid] using this
  norm_num at h5

/-- C8 (amended): a stored bid is left entirely unchanged by every storage
operation except `updateBid` applied to that bid's own id (an operation no
HTTP route of the server ever issues). -/
theorem bids_unchanged_except_updateBid (s : MemStorage) (op : StorageOp)
    (id : Nat) (b b' : Bid) (hb : getBid s id = some b)
    (hb' : getBid (applyOp s op) id = some b')
    (hop : ∀ i u, op = .updateBid i u → i ≠ id) :
    b' = b := by
  have hother : ∀ op' : StorageOp, (applyOp s op').bids = s.bids →
      getBid (applyOp s op') id = some b' → b' = b := by
    intro op' hbids hb''
    unfold getBid at hb'' hb
    rw [hbids, hb] at hb''
    exact (Option.some_injective _ hb'').symm
  cases op with
  | createBid ins =>
    have hsame : getBid (applyOp s (.createBid ins)) id = some b := by
      unfold getBid at hb ⊢
      show ((createBid s ins).2.bids.find? (fun x => x.id == id)) = some b
      simp only [createBid, List.find?_append, hb]
      rfl
    rw [hsame] at hb'
    exact (Option.some_injective _ hb').symm
  | updateBid i u =>
    have hi : i ≠ id := hop i u rfl
    have hbid : b.id = id := getBid_id s id b hb
    unfold applyOp updateBid at hb'
    simp only at hb'
    cases hg : getBid s i with
    | none =>
      rw [hg] at hb'
      simp only at hb'
      rw [hb] at hb'
      exact (Option.some_injective _ hb').symm
    | some c =>
      rw [hg] at hb'
      simp only at hb'
      unfold getBid at hb hb'
      simp only [find?_map_mergeBid, hb] at hb'
      have hne : (b.id == i) = false := by
        rw [hbid]
        simpa using fun h => hi h.symm
      simp only [Option.map_some'] at hb'
      rw [hne] at hb'
      simp only [Bool.false_eq_true, if_false] at hb'
      exact (Option.some_injective _ hb').symm
  | createAdvertiser ins =>
    exact hother _ (applyOp_bids_eq s _ (fun _ h => by cases h)
      (fun _ _ h => by cases h)) hb'
  | updateAdvertiser i u =>
    exact hother _ (applyOp_bids_eq s _ (fun _ h => by cases h)
      (fun _ _ h => by cases h)) hb'
  | createAdSlot ins =>
    exact hother _ (applyOp_bids_eq s _ (fun _ h => by cases h)
      (fun _ _ h => by cases h)) hb'
  | updateAdSlot i u =>
    exact hother _ (applyOp_bids_eq s _ (fun _ h => by cases h)
      (fun _ _ h => by cases h)) hb'
  | deleteAdSlot i =>
    exact hother _ (applyOp_bids_eq s _ (fun _ h => by cases h)
      (fun _ _ h => by cases h)) hb'
  | createCampaign ins =>
    exact hother _ (applyOp_bids_eq s _ (fun _ h => by cases h)
      (fun _ _ h => by cases h)) hb'
  | updateCampaign i u =>
    exact hother _ (applyOp_bids_eq s _ (fun _ h => by cases h)
      (fun _ _ h => by cases h)) hb'

/-- Witness for `bids_unchanged_except_updateBid`: creating an advertiser
leaves the stored bid untouched. -/
theorem bids_unchanged_except_updateBid_witness :
    getBid immutWitnessStore 1 = some immutWitnessBid ∧
    getBid (applyOp immutWitnessStore
      (.createAdvertiser ⟨1, "FinSecure", "Finance", none, none, 12000⟩)) 1 =
      some immutWitnessBid ∧
    immutWitnessBid = immutWitnessBid :=
  ⟨rfl, rfl,
    bids_unchanged_except_updateBid immutWitnessStore
      (.createAdvertiser ⟨1, "FinSecure", "Finance", none, none, 12000⟩) 1
      immutWitnessBid immutWitnessBid rfl rfl (fun i u h => by cases h)⟩

/-- C2: for every non-empty candidate set the auction winner exists and is
ranked no later than every candidate (adjusted score descending, ties by
higher raw amount then earlier submission); the ranking is a sorted
permutation of the candidates; and repeated runs over the identical
candidate set return the identical ordering and winner. -/
theorem auction_ranking_deterministic (c : List ScoredBid) (hne : c ≠ []) :
    ∃ w, auctionWinner c = some w ∧ w ∈ c ∧
      (∀ b ∈ c, ranksNoLaterThan w b) ∧
      (rankBids c).Perm c ∧ List.Sorted ranksNoLaterThan (rankBids c) ∧
      ∀ c', c' = c → rankBids c' = rankBids c ∧
        auctionWinner c' = auctionWinner c := by
  have hperm : (rankBids c).Perm c := List.perm_insertionSort _ c
  have hsort : List.Sorted ranksNoLaterThan (rankBids c) :=
    List.sorted_insertionSort _ c
  have hne' : rankBids c ≠ [] := by
    intro h
    rw [h] at hperm
    exact hne hperm.symm.eq_nil
  obtain ⟨w, t, hwt⟩ := List.exists_cons_of_ne_nil hne'
  refine ⟨w, ?_, ?_, ?_, hperm, hsort, ?_⟩
  · unfold auctionWinner
    rw [hwt]
    rfl
  · have hw : w ∈ rankBids c := by
      rw [hwt]
      exact List.mem_cons_self _ _
    exact hperm.mem_iff.mp hw
  · intro b hb
    have hbr : b ∈ rankBids c := hperm.mem_iff.mpr hb
    rw [hwt] at hbr hsort
    rcases List.mem_cons.mp hbr with rfl | hbt
    · exact IsRefl.refl b
    · exact (List.sorted_cons.mp hsort).1 b hbt
  · intro c' h
    subst h
    exact ⟨rfl, rfl⟩

/-- Witness for `auction_ranking_deterministic` on a one-candidate set. -/
theorem auction_ranking_deterministic_witness :
    ([rankWitness] : List ScoredBid) ≠ [] ∧
    (∃ w, auctionWinner [rankWitness] = some w ∧ w ∈ [rankWitness] ∧
      (∀ b ∈ [rankWitness], ranksNoLaterThan w b) ∧
      (rankBids [rankWitness]).Perm [rankWitness] ∧
      List.Sorted ranksNoLaterThan (rankBids [rankWitness]) ∧
      ∀ c', c' = [rankWitness] → rankBids c' = rankBids [rankWitness] ∧
        auctionWinner c' = auctionWinner [rankWitness]) :=
  ⟨by simp, auction_ranking_deterministic [rankWitness] (by simp)⟩

/-- C7: in the spec's worked example — slot floor price 2, Bid A a CPM bid
of 5 (VPI 0.005), Bid B a CPC bid of 0.50 with CTR 0.02 (VPI 0.010) — the
ranking places Bid B above Bid A and B wins. -/
theorem cpc_example_outranks_cpm :
    exampleSlot.floorPrice = 2 ∧
    exampleScoredA.adjustedScore = 5 / 1000 ∧
    exampleScoredB.adjustedScore = 1 / 100 ∧
    exampleScoredB.adjustedScore > exampleScoredA.adjustedScore ∧
    rankBids [exampleScoredA, exampleScoredB] =
      [exampleScoredB, exampleScoredA] ∧
    auctionWinner [exampleScoredA, exampleScoredB] = some exampleScoredB := by
  have hAB : ¬ ranksNoLaterThan exampleScoredA exampleScoredB := by
    unfold ranksNoLaterThan
    norm_num [exampleScoredA, exampleScoredB, exampleBidA, exampleBidB,
      exampleRates, normalizeBid]
  have hrank : rankBids [exampleScoredA, exampleScoredB] =
      [exampleScoredB, exampleScoredA] := by
    simp [rankBids, List.insertionSort, List.orderedInsert, hAB]
  refine ⟨rfl, ?_, ?_, ?_, hrank, ?_⟩
  · norm_num [exampleScoredA, exampleBidA, exampleRates, normalizeBid]
  · norm_num [exampleScoredB, exampleBidB, exampleRates, normalizeBid]
  · norm_num [exampleScoredA, exampleScoredB, exampleBidA, exampleBidB,
      exampleRates, normalizeBid]
  · rw [auctionWinner, hrank]
    rfl

end BiddingEngine
